import Mathlib

/-!
Shallow embedding of the EHR audit-log dataset preparation pipeline
(`model/data.py`, class `EHRAuditDataset`) together with the cache store,
the time bucketizer and the dataset orchestration it contains, and proofs
settling the specification claims about them.

Conventions of the embedding:
* A pandas DataFrame row is a `Raw` / `RowG` structure; a missing value
  (NaN in a categorical or user column) is `Option.none`.
* The embedding models the frame *after* `sort_values` for an input log that
  is already chronologically ordered (the claims quantify over ordered event
  streams).  For such a log the stable sort is the identity permutation, so
  the RangeIndex labels coincide with positions; the code at
  `df.loc[0, ...] = 0` and the positional/label indexing of the two
  segmentation loops are embedded under that correspondence, with the
  original integer labels carried explicitly through the segmentation as the
  first component of each `(label, row)` pair.
* Machine integers are `Int`/`Nat`; numpy float results that matter to the
  claims (`-inf`, `nan` from `np.log`) are the constructors of `NpFloat`.
* Fallible Python code (raising exceptions) is embedded as `Except PyErr`.
-/

deriving instance DecidableEq for Except

/-- A raw log row after column selection: the user identifier column
(`PAT_ID`, `none` = missing/NaN), the canonical timestamp (epoch seconds,
already numeric after the datetime conversion of lines 92–94), and the
event-type columns (`METRIC_NAME`, ...; `none` = missing/NaN). -/
structure Raw where
  user : Option Nat
  ts : Int
  evs : List (Option String)
deriving DecidableEq, Repr

/-- A row whose timestamp column has been replaced by a time delta
(line 102 `df[ts] = df[ts].diff()`), generic in the user column's type:
`Option Nat` before the per-shift categorical remap, `Int` after it. -/
structure RowG (υ : Type) where
  user : υ
  delta : Int
  evs : List (Option String)
deriving DecidableEq, Repr

/-- Row after the diff, before the user remap. -/
abbrev DRow := RowG (Option Nat)

/-- Row after the per-shift categorical user remap (user is an integer code). -/
abbrev CRow := RowG Int

/-- The row materialised by `df.loc[0, timestamp_col] = 0` when the frame is
empty: pandas setting-with-enlargement creates a row labelled `0` whose
timestamp column is `0` and whose other `k` columns are all NaN. -/
def phantom (k : Nat) : DRow :=
  ⟨none, 0, List.replicate k none⟩

/-- Deltas of the rows after the first: `ts[i] - ts[i-1]`
(line 102, positions `1..`). -/
def deltasFrom (prev : Int) : List Raw → List DRow
  | [] => []
  | r :: rs => ⟨r.user, r.ts - prev, r.evs⟩ :: deltasFrom r.ts rs

/-- Lines 102–105: replace the timestamp column by its first difference and
set the entry at label `0` to `0`.  For a chronologically ordered log, label
`0` is the first row, whose diff is NaN, so the first delta becomes `0`.  On
an empty frame the `df.loc[0, ...] = 0` assignment enlarges the frame with a
phantom row (`k` = number of non-timestamp columns). -/
def addDeltas (k : Nat) : List Raw → List DRow
  | [] => [phantom k]
  | r :: rs => ⟨r.user, 0, r.evs⟩ :: deltasFrom r.ts rs

/-- The shift loop of lines 108–119, as a recursion equivalent to the Python
loop under the label = position correspondence: iterate the `(label, row)`
pairs; when a row's delta exceeds the threshold, close the pending segment
(`df.iloc[seq_start_idx:i]`), reset that row's delta to `0`
(`df.loc[i, ts] = 0`) and start a new pending segment with it; at the end
append the remaining slice unconditionally (line 119), so an empty frame
yields one empty segment. `pending` holds the current segment reversed. -/
def segAux {υ : Type} (g : Int) (pending : List (Nat × RowG υ)) :
    List (Nat × RowG υ) → List (List (Nat × RowG υ))
  | [] => [pending.reverse]
  | (i, r) :: rest =>
    if r.delta > g then
      pending.reverse :: segAux g [(i, { r with delta := 0 })] rest
    else
      segAux g ((i, r) :: pending) rest

/-- Lines 96–119: the whole shift pass of `load_from_log` on an ordered log:
deltas, first-delta reset, then the gap segmentation with threshold
`g = shift_sep_min * 60`.  Labels are the frame's RangeIndex. -/
def shiftAll (k : Nat) (g : Int) (rows : List Raw) : List (List (Nat × DRow)) :=
  segAux g [] (addDeltas k rows).enum

/-- The pandas categorical code of one value with respect to a column's values
(lines 123–124, `astype("category").cat.codes`): NaN gets `-1`; a present
value gets its rank in the sorted list of distinct non-null values, i.e. the
number of distinct non-null values strictly below it. -/
def catCode (us : List (Option Nat)) : Option Nat → Int
  | none => -1
  | some x => (((us.filterMap id).dedup).filter (· < x)).length

/-- The remapped user column of one shift (lines 123–124). -/
def catCodes (us : List (Option Nat)) : List Int :=
  us.map (catCode us)

/-- Lines 123–124 applied to one shift: replace the user column by its
categorical codes, computed from that shift's user column alone. -/
def remapShift (s : List (Nat × DRow)) : List (Nat × CRow) :=
  let us := s.map (fun p => p.2.user)
  s.map (fun p => (p.1, ⟨catCode us p.2.user, p.2.delta, p.2.evs⟩))

/-- Lines 121–124: the per-shift user remap over all shifts. -/
def remapShifts (shifts : List (List (Nat × DRow))) : List (List (Nat × CRow)) :=
  shifts.map remapShift

/-- Python positional slice `l[a:b]` for `0 ≤ a, b` (`df.iloc[a:b]`):
clipping and empty-on-crossed-bounds semantics. -/
def pySlice {α : Type} (l : List α) (a b : Nat) : List α :=
  (l.drop a).take (b - a)

/-- The mutable loop state of the session pass: the accumulated session list
`seqs` and `seq_start_idx`, which line 129 initialises once, outside the
loop over shifts. -/
structure SessSt where
  seqs : List (List (Nat × CRow))
  start : Nat
deriving DecidableEq, Repr

/-- One iteration of the inner loop of lines 131–136.  `acc.1` is the
current (possibly already mutated) shift frame, `acc.2` the loop state;
`lr` is the `(label, row)` pair delivered by `iterrows` (its values are the
original ones: a row is only ever mutated at its own iteration).  On a
split: `shift.loc[i, ts] = 0` mutates the row with label `lr.1`, then
`shift.iloc[seq_start_idx:i]` takes a *positional* slice bounded by the
*label* `i`, then `seq_start_idx = i`. -/
def sessStep (g : Int) (acc : List (Nat × CRow) × SessSt) (lr : Nat × CRow) :
    List (Nat × CRow) × SessSt :=
  if lr.2.delta > g then
    let cur := acc.1.map fun p =>
      if p.1 = lr.1 then (p.1, { p.2 with delta := 0 }) else p
    (cur, ⟨acc.2.seqs ++ [pySlice cur acc.2.start lr.1], lr.1⟩)
  else acc

/-- Lines 131–139 for one shift: run the inner loop, then append
`shift.iloc[seq_start_idx:]` (line 139).  `seq_start_idx` is *not* reset
before or after a shift. -/
def sessShift (g : Int) (st : SessSt) (shift : List (Nat × CRow)) : SessSt :=
  let res := shift.foldl (sessStep g) (shift, st)
  ⟨res.2.seqs ++ [pySlice res.1 res.2.start res.1.length], res.2.start⟩

/-- Lines 126–139: the session pass over the list of shifts, with
`seqs = []`, `seq_start_idx = 0` initialised once before the outer loop. -/
def sessionPass (g : Int) (shifts : List (List (Nat × CRow))) :
    List (List (Nat × CRow)) :=
  (shifts.foldl (sessShift g) ⟨[], 0⟩).seqs

/-- Lines 96–139 composed: shifts, per-shift user remap, then sessions, with
`gShift = shift_sep_min * 60` and `gSess = session_sep_min * 60`. -/
def sessionsOfLog (k : Nat) (gShift gSess : Int) (rows : List Raw) :
    List (List (Nat × CRow)) :=
  sessionPass gSess (remapShifts (shiftAll k gShift rows))

/-- The boundary-reset map: the delta of a row is replaced by `0` exactly
when it exceeds the threshold (this is what the segmentation loop leaves
behind when its segments are concatenated). -/
def zeroBounds {υ : Type} (g : Int) (l : List (Nat × RowG υ)) :
    List (Nat × RowG υ) :=
  l.map fun p => if p.2.delta > g then (p.1, { p.2 with delta := 0 }) else p

/-!  ## Time Bucketizer (lines 144–148)  -/

/-- The values `np.log` can produce that the claims care about: a finite
float (held exactly as a real), `-inf` (from `log 0`) and `nan` (from the
log of a negative number).  numpy emits a `RuntimeWarning` for the latter
two and *returns* them; it does not raise. -/
inductive NpFloat where
  | nan : NpFloat
  | neginf : NpFloat
  | fin : ℝ → NpFloat

/-- Model of `np.log(x + 1)` for an integer delta `x` (the timestamp column holds
integer second deltas): `nan` when `x + 1 < 0`, `-inf` when `x + 1 = 0`,
otherwise the natural logarithm. -/
noncomputable def npLog1p (d : Int) : NpFloat :=
  if d + 1 < 0 then .nan
  else if d + 1 = 0 then .neginf
  else .fin (Real.log ((d : ℝ) + 1))

/-- Model of `np.digitize(v, bins)` for a finite `v` and monotonically increasing
`bins` (the caller's contract): `searchsorted(bins, v, side="right")`, the
number of bin edges `≤ v`. -/
noncomputable def digitizeFin (v : ℝ) : List ℚ → ℕ
  | [] => 0
  | e :: es => if (e : ℝ) ≤ v then digitizeFin v es + 1 else digitizeFin v es

/-- Model of `np.digitize` on a possibly non-finite value: `-inf` sorts below every
edge (bucket `0`); `nan` sorts above every edge (`searchsorted` places it
last, bucket `len(bins)`). -/
noncomputable def npDigitize (x : NpFloat) (bins : List ℚ) : ℕ :=
  match x with
  | .nan => bins.length
  | .neginf => 0
  | .fin v => digitizeFin v bins

/-- Line 147: the bucket the code computes for one delta,
`np.digitize(np.log(x + 1), self.timestamp_spaces)` — the *whole*
`timestamp_spaces` list is passed as the bins. -/
noncomputable def bucketize (d : Int) (edges : List ℚ) : ℕ :=
  npDigitize (npLog1p d) edges

/-- Modelled from the spec's words for comparison (claim C3): the bucket the
specification describes, `digitize(ln(delta + 1), edges[1:])`, with the
first element of `edges` reserved as a spacing hint and not used as a bin
boundary. -/
noncomputable def bucketizeSpecTail (d : Int) (edges : List ℚ) : ℕ :=
  npDigitize (npLog1p d) edges.tail

/-!  ## Tokenizer / Chunker (lines 150–177)  -/

/-- The vocabulary collaborator (external, `model/vocab.py` is not part of
the sources): a total map from (column name, string value) to a token, and
the reserved end-of-sequence token string. -/
structure Vocab where
  fieldToToken : String → String → ℕ
  eosToken : String

/-- The tokenized column configuration: line 151,
`tokenized_cols = [user_col, timestamp_col] + event_type_cols`. -/
structure TokCfg where
  userCol : String
  tsCol : String
  evCols : List String
deriving DecidableEq, Repr

/-- The column count `len(tokenized_cols)`. -/
def numCols (c : TokCfg) : ℕ :=
  2 + c.evCols.length

/-- Python `str` of a possibly missing categorical value (`str(nan)`). -/
def strOfOpt : Option String → String
  | none => "nan"
  | some s => s

/-- Lines 156–161: the tokens of one row, one per column of
`tokenized_cols` in order — the user code, the (bucketized) timestamp
column, then each event-type column.  `str(row[col])` is modelled by
`toString` for the integer-valued columns.  (The row must carry one value
per event column; the pipeline guarantees `r.evs.length = c.evCols.length`.) -/
def rowTokens (v : Vocab) (c : TokCfg) (r : RowG Int) : List ℕ :=
  v.fieldToToken c.userCol (toString r.user)
    :: v.fieldToToken c.tsCol (toString r.delta)
    :: (c.evCols.zip r.evs).map fun p => v.fieldToToken p.1 (strOfOpt p.2)

/-- Lines 163–166: the end-of-sequence token,
`vocab.field_to_token("special", vocab.eos_token)`. -/
def eosTok (v : Vocab) : ℕ :=
  v.fieldToToken "special" v.eosToken

/-- Lines 153–166: the flat token list of one session — the row tokens in
row-major order followed by exactly one end-of-sequence token. -/
def sessionTokens (v : Vocab) (c : TokCfg) (s : List (RowG Int)) : List ℕ :=
  s.flatMap (rowTokens v c) ++ [eosTok v]

/-- Model of `torch.split(tensor, cs)` along dim 0 for `cs ≥ 1`: consecutive chunks
of `cs` elements, the last possibly shorter. -/
def torchSplit {α : Type} (cs : ℕ) (l : List α) : List (List α) :=
  if h : cs = 0 ∨ l.isEmpty = true then []
  else l.take cs :: torchSplit cs (l.drop cs)
termination_by l.length
decreasing_by
  push_neg at h
  have h1 : 0 < cs := Nat.pos_of_ne_zero h.1
  have h2 : 0 < l.length := List.length_pos.mpr (by simpa using h.2)
  simpa using Nat.sub_lt h2 h1

/-- Error raised by `torch.split` when the split size is `0` and the tensor is
non-empty. -/
inductive TorchErr where
  | zeroSplit : TorchErr
deriving DecidableEq, Repr

/-- Lines 171–174: if `max_length` is configured, split the token list into
chunks of `max_length // len(tokenized_cols)` (integer division); otherwise
keep the whole sequence as a single unit. -/
def chunkStage (maxLen : Option ℕ) (nCols : ℕ) (toks : List ℕ) :
    Except TorchErr (List (List ℕ)) :=
  match maxLen with
  | none => .ok [toks]
  | some m =>
    if m / nCols = 0 ∧ toks ≠ [] then .error .zeroSplit
    else .ok (torchSplit (m / nCols) toks)

/-- Lines 150–175 for one session: tokenize then chunk. -/
def tokenizeChunk (v : Vocab) (c : TokCfg) (maxLen : Option ℕ)
    (s : List (RowG Int)) : Except TorchErr (List (List ℕ)) :=
  chunkStage maxLen (numCols c) (sessionTokens v c s)

/-!  ## Cache Store and orchestration (lines 58–71, 181–229)  -/

/-- Python exceptions the embedded code can raise. -/
inductive PyErr where
  | eofError : PyErr
  | unpicklingError : PyErr
  | fileNotFound : PyErr
  | typeError : PyErr
  | valueError : PyErr
deriving DecidableEq, Repr

/-- The on-disk states of the count artifact `length.pkl` that matter:
present but zero bytes, present but not unpicklable garbage, or a valid
pickle of `self.len` (which is `None` when tokenization was skipped, hence
`Option ℕ`). -/
inductive CountFile where
  | empty : CountFile
  | corrupt : CountFile
  | valid : Option ℕ → CountFile
deriving DecidableEq, Repr

/-- Model of `pickle.load` on an open count artifact: `EOFError` on an empty file,
`UnpicklingError` on garbage, the stored value otherwise. -/
def pickleLoad : CountFile → Except PyErr (Option ℕ)
  | .empty => .error .eofError
  | .corrupt => .error .unpicklingError
  | .valid n => .ok n

/-- Lines 203–210 of `load_from_cache`: read the count artifact;
`except EOFError: self.len = 0` — only `EOFError` is caught and degraded to
a count of `0`; any other unpickling failure propagates. -/
def loadCountStep (cf : CountFile) : Except PyErr (Option ℕ) :=
  match pickleLoad cf with
  | .error .eofError => .ok (some 0)
  | .error e => .error e
  | .ok n => .ok n

/-- The cache directory's state: whether the cache sub-directory exists,
the state of the count artifact inside it (if present), and whether the
sequences artifact `seqs.pt` is present. -/
structure FS where
  cacheDir : Bool
  countFile : Option CountFile
  seqsFile : Bool
deriving DecidableEq, Repr

/-- The filesystem writes of the save step. -/
inductive CacheOp where
  | mkdirCache : CacheOp
  | writeCount : Option ℕ → CacheOp
  | writeSeqs : CacheOp
deriving DecidableEq, Repr

/-- Lines 181–192: the ordered filesystem operations the save step performs
when a cache location is configured: create the cache directory if absent
(lines 184–185), then write the count artifact (lines 187–190), then write
the sequences artifact (line 192). -/
def saveOps (fs : FS) (n : Option ℕ) : List CacheOp :=
  (if fs.cacheDir then [] else [.mkdirCache]) ++ [.writeCount n, .writeSeqs]

/-- Effect of one save operation on the cache directory state. -/
def applyOp (fs : FS) : CacheOp → FS
  | .mkdirCache => { fs with cacheDir := true }
  | .writeCount n => { fs with countFile := some (.valid n) }
  | .writeSeqs => { fs with seqsFile := true }

/-- Run a prefix of the save operations (an interrupted save runs a proper
prefix). -/
def runOps (fs : FS) (ops : List CacheOp) : FS :=
  ops.foldl applyOp fs

/-- The artifact reads `load_from_cache` can perform. -/
inductive ReadOp where
  | readCountArtifact : ReadOp
  | readSeqsArtifact : ReadOp
deriving DecidableEq, Repr

/-- Lines 224–229, `__len__`, with the `load_from_cache(length=True)` call
of line 228 inlined (lines 199–210; `seqs` keeps its default `False`, so
the sequences artifact is never touched on this path).  When no cache is
configured, `os.path.join(self.root_dir, None)` in the short-circuited
existence check raises `TypeError`.  The second component records which
artifacts were read. -/
def lenMethod (selfLen : Option ℕ) (cacheCfg : Option String) (fs : FS) :
    Except PyErr (Option ℕ) × List ReadOp :=
  match cacheCfg with
  | none =>
    if selfLen = none then (.error .typeError, [])
    else (.ok selfLen, [])
  | some _ =>
    if selfLen = none ∧ fs.cacheDir then
      match fs.countFile with
      | none => (.error .fileNotFound, [])
      | some cf =>
        match loadCountStep cf with
        | .ok n => (.ok n, [.readCountArtifact])
        | .error e => (.error e, [.readCountArtifact])
    else (.ok selfLen, [])

/-- The configuration checked by `__init__` and the head of
`load_from_log`. -/
structure InitCfg where
  tsCol : String
  sortCols : List String
  spaces : Option (List ℚ)
  shouldTokenize : Bool
deriving DecidableEq, Repr

/-- Lines 58–59 of `__init__`: pure field assignments plus the one check —
`ValueError` when tokenization is requested without timestamp bins.  The
constructor performs no filesystem I/O. -/
def datasetInit (c : InitCfg) : Except PyErr Unit :=
  if c.spaces = none ∧ c.shouldTokenize then .error .valueError else .ok ()

/-- The externally visible steps at the head of `load_from_log`. -/
inductive LogOp where
  | readLogCSV : LogOp
  | raiseConfigError : LogOp
  | processPipeline : LogOp
deriving DecidableEq, Repr

/-- Lines 77–85 of `load_from_log`: `pd.read_csv` (line 79) runs first;
only then is `timestamp_col ∈ timestamp_sort_cols` checked (lines 82–85),
raising `ValueError` on failure; otherwise processing continues. -/
def loadFromLogOps (c : InitCfg) : List LogOp :=
  [.readLogCSV] ++
    (if c.tsCol ∈ c.sortCols then [.processPipeline] else [.raiseConfigError])

/-!  ## Concrete inputs and spec-side comparison definitions  -/

/-- A chronologically ordered log of nine events for one provider: a
session gap (delta 980 s) inside the first shift, then a shift gap
(delta 20000 s), then three small deltas.  With
`shift_sep_min * 60 = 18000` and `session_sep_min * 60 = 240` the shift
pass yields two shifts (labels 0–4 and 5–8). -/
def rowsC2 : List Raw :=
  [⟨some 1, 0, []⟩, ⟨some 1, 10, []⟩, ⟨some 1, 20, []⟩,
   ⟨some 1, 1000, []⟩, ⟨some 1, 1010, []⟩,
   ⟨some 1, 21010, []⟩, ⟨some 1, 21020, []⟩, ⟨some 1, 21030, []⟩,
   ⟨some 1, 21040, []⟩]

/-- Distinct values of a column in order of first appearance. -/
def firstSeen (l : List (Option Nat)) : List (Option Nat) :=
  l.foldl (fun acc a => if a ∈ acc then acc else acc ++ [a]) []

/-- Modelled from the spec (claim C6), for comparison with `catCodes`: the
User Index Remapper the specification describes, assigning dense integers
"in order of first appearance within that Shift". -/
def firstAppearCodes (us : List (Option Nat)) : List Int :=
  us.map fun u => ((firstSeen us).indexOf u : Int)

/-- A two-event ordered log used to instantiate the shift-pass theorem. -/
def rowsW : List Raw :=
  [⟨some 1, 100, []⟩, ⟨some 1, 130, []⟩]

/-- A concrete vocabulary used to instantiate the tokenizer theorem. -/
def vocabW : Vocab :=
  ⟨fun a b => a.length + b.length, "eos"⟩

/-- A concrete column configuration (`PAT_ID`, `ACCESS_TIME`,
`METRIC_NAME`) used to instantiate the tokenizer theorem. -/
def tokCfgW : TokCfg :=
  ⟨"PAT_ID", "ACCESS_TIME", ["METRIC_NAME"]⟩

/-- A concrete two-row session used to instantiate the tokenizer theorem. -/
def sessW : List (RowG Int) :=
  [⟨0, 1, [some "Login"]⟩, ⟨1, 2, [none]⟩]

/-!  ## Lemmas: shift segmentation  -/

/-- Concatenating the segments produced by the segmentation loop restores
the pending segment followed by the processed stream with every
threshold-exceeding delta reset to `0`. -/
theorem segAux_join {υ : Type} (g : Int)
    (pending rest : List (Nat × RowG υ)) :
    (segAux g pending rest).flatten = pending.reverse ++ zeroBounds g rest := by
  induction rest generalizing pending with
  | nil => simp [segAux, zeroBounds]
  | cons hd tl ih =>
    obtain ⟨i, r⟩ := hd
    by_cases hgt : r.delta > g
    · simp only [segAux, if_pos hgt, List.flatten_cons, ih, zeroBounds,
        List.map_cons]
      simp [zeroBounds, hgt]
    · simp only [segAux, if_neg hgt, ih, zeroBounds, List.map_cons]
      simp [zeroBounds, hgt]

/-- For a nonnegative threshold, no row of any output segment keeps a delta
above the threshold (boundary rows were reset to `0`). -/
theorem segAux_delta_le {υ : Type} {g : Int} (hg : 0 ≤ g)
    (pending rest : List (Nat × RowG υ))
    (hp : ∀ p ∈ pending, p.2.delta ≤ g) :
    ∀ seg ∈ segAux g pending rest, ∀ p ∈ seg, p.2.delta ≤ g := by
  induction rest generalizing pending with
  | nil =>
    intro seg hseg p hmem
    simp only [segAux, List.mem_singleton] at hseg
    subst hseg
    exact hp p (List.mem_reverse.mp hmem)
  | cons hd tl ih =>
    obtain ⟨i, r⟩ := hd
    by_cases hgt : r.delta > g
    · intro seg hseg
      simp only [segAux, if_pos hgt, List.mem_cons] at hseg
      rcases hseg with h | h
      · subst h
        intro p hmem
        exact hp p (List.mem_reverse.mp hmem)
      · refine ih [(i, { r with delta := 0 })] ?_ seg h
        intro p hmem
        simp only [List.mem_singleton] at hmem
        subst hmem
        simpa using hg
    · intro seg hseg
      simp only [segAux, if_neg hgt] at hseg
      refine ih ((i, r) :: pending) ?_ seg hseg
      intro p hmem
      rcases List.mem_cons.mp hmem with h | h
      · subst h
        simpa using le_of_not_lt hgt
      · exact hp p h

/-- If the pending segment ends in a delta-`0` row, every output segment
starts with a delta-`0` row. -/
theorem segAux_head_delta {υ : Type} {g : Int}
    (rest ps : List (Nat × RowG υ)) (q : Nat × RowG υ)
    (hq0 : q.2.delta = 0) :
    ∀ seg ∈ segAux g (ps ++ [q]) rest,
      seg.head?.map (fun p => p.2.delta) = some 0 := by
  induction rest generalizing ps q with
  | nil =>
    intro seg hseg
    simp only [segAux, List.mem_singleton] at hseg
    subst hseg
    simp [hq0]
  | cons hd tl ih =>
    obtain ⟨i, r⟩ := hd
    by_cases hgt : r.delta > g
    · intro seg hseg
      simp only [segAux, if_pos hgt, List.mem_cons] at hseg
      rcases hseg with h | h
      · subst h
        simp [hq0]
      · exact ih [] (i, { r with delta := 0 }) rfl seg h
    · intro seg hseg
      simp only [segAux, if_neg hgt] at hseg
      exact ih ((i, r) :: ps) q hq0 seg hseg

/-- Every output segment after the first starts with a delta-`0` row. -/
theorem segAux_tail_head {υ : Type} {g : Int}
    (pending rest : List (Nat × RowG υ)) :
    ∀ seg ∈ (segAux g pending rest).tail,
      seg.head?.map (fun p => p.2.delta) = some 0 := by
  induction rest generalizing pending with
  | nil => simp [segAux]
  | cons hd tl ih =>
    obtain ⟨i, r⟩ := hd
    by_cases hgt : r.delta > g
    · simp only [segAux, if_pos hgt, List.tail_cons]
      exact segAux_head_delta tl [] (i, { r with delta := 0 }) rfl
    · simpa [segAux, hgt] using ih ((i, r) :: pending)

/-- The boundary-reset map keeps labels (hence order and identity of the
events). -/
theorem zeroBounds_fst {υ : Type} (g : Int) (l : List (Nat × RowG υ)) :
    (zeroBounds g l).map Prod.fst = l.map Prod.fst := by
  induction l with
  | nil => simp [zeroBounds]
  | cons hd tl ih =>
    by_cases hgt : hd.2.delta > g <;>
      simp [zeroBounds, hgt] at ih ⊢ <;> exact ih

/-!  ## Lemmas: chunking  -/

/-- Concatenating the chunks of `torch.split` restores the token list. -/
theorem torchSplit_flatten {α : Type} (cs : ℕ) (hcs : cs ≠ 0) (l : List α) :
    (torchSplit cs l).flatten = l := by
  by_cases he : l = []
  · subst he
    rw [torchSplit]
    simp
  · rw [torchSplit, dif_neg (by simp [hcs, he])]
    rw [List.flatten_cons, torchSplit_flatten cs hcs (l.drop cs)]
    exact List.take_append_drop cs l
termination_by l.length
decreasing_by
  have h1 : 0 < cs := Nat.pos_of_ne_zero hcs
  have h2 : 0 < l.length := List.length_pos.mpr he
  simpa using Nat.sub_lt h2 h1

/-- Splitting a non-empty list yields a non-empty chunk list. -/
theorem torchSplit_ne_nil {α : Type} (cs : ℕ) (hcs : cs ≠ 0) (l : List α)
    (he : l ≠ []) : torchSplit cs l ≠ [] := by
  rw [torchSplit, dif_neg (by simp [hcs, he])]
  simp

/-- Every chunk of `torch.split` has at most `cs` elements. -/
theorem torchSplit_chunk_le {α : Type} (cs : ℕ) (hcs : cs ≠ 0) (l : List α) :
    ∀ ch ∈ torchSplit cs l, ch.length ≤ cs := by
  by_cases he : l = []
  · subst he
    rw [torchSplit]
    simp
  · rw [torchSplit, dif_neg (by simp [hcs, he])]
    intro ch hch
    rcases List.mem_cons.mp hch with h | h
    · subst h
      simpa using Nat.min_le_left cs l.length
    · exact torchSplit_chunk_le cs hcs (l.drop cs) ch h
termination_by l.length
decreasing_by
  have h1 : 0 < cs := Nat.pos_of_ne_zero hcs
  have h2 : 0 < l.length := List.length_pos.mpr he
  simpa using Nat.sub_lt h2 h1

/-- Every chunk of `torch.split` other than the last has exactly `cs`
elements. -/
theorem torchSplit_chunk_eq {α : Type} (cs : ℕ) (hcs : cs ≠ 0) (l : List α) :
    ∀ i : ℕ, i + 1 < (torchSplit cs l).length →
      ∀ ch, (torchSplit cs l)[i]? = some ch → ch.length = cs := by
  by_cases he : l = []
  · subst he
    rw [torchSplit]
    simp
  · intro i h ch hch
    have hsplit : torchSplit cs l = l.take cs :: torchSplit cs (l.drop cs) := by
      rw [torchSplit, dif_neg (by simp [hcs, he])]
    match i with
    | 0 =>
      have hrest : torchSplit cs (l.drop cs) ≠ [] := by
        rw [hsplit] at h
        simp only [List.length_cons] at h
        intro hcon
        rw [hcon] at h
        simp at h
      have hdrop : l.drop cs ≠ [] := by
        intro hcon
        apply hrest
        rw [hcon, torchSplit]
        simp
      have hlt : cs < l.length := by
        by_contra hle
        exact hdrop (List.drop_eq_nil_of_le (le_of_not_lt hle))
      rw [hsplit] at hch
      simp only [List.getElem?_cons_zero, Option.some_inj] at hch
      subst hch
      simp [Nat.min_eq_left (le_of_lt hlt)]
    | i + 1 =>
      have h2 : i + 1 < (torchSplit cs (l.drop cs)).length := by
        rw [hsplit] at h
        simpa using h
      rw [hsplit] at hch
      simp only [List.getElem?_cons_succ] at hch
      exact torchSplit_chunk_eq cs hcs (l.drop cs) i h2 ch hch
termination_by l.length
decreasing_by
  have h1 : 0 < cs := Nat.pos_of_ne_zero hcs
  have h2 : 0 < l.length := List.length_pos.mpr he
  simpa using Nat.sub_lt h2 h1

/-- A list no longer than the chunk size yields exactly one (short) chunk. -/
theorem torchSplit_short {α : Type} (cs : ℕ) (hcs : cs ≠ 0) (l : List α)
    (he : l ≠ []) (hle : l.length ≤ cs) : torchSplit cs l = [l] := by
  rw [torchSplit, dif_neg (by simp [hcs, he])]
  rw [List.take_of_length_le hle, List.drop_eq_nil_of_le hle, torchSplit]
  simp

/-!  ## Lemmas: tokenizer  -/

/-- A row carrying one value per event column contributes exactly
`len(tokenized_cols)` tokens. -/
theorem rowTokens_length (v : Vocab) (c : TokCfg) (r : RowG Int)
    (h : r.evs.length = c.evCols.length) :
    (rowTokens v c r).length = numCols c := by
  simp [rowTokens, numCols, List.length_zip, h]
  omega

/-- One token per (event, column) pair plus exactly one end-of-sequence
token. -/
theorem sessionTokens_length (v : Vocab) (c : TokCfg) (s : List (RowG Int))
    (h : ∀ r ∈ s, r.evs.length = c.evCols.length) :
    (sessionTokens v c s).length = numCols c * s.length + 1 := by
  induction s with
  | nil => simp [sessionTokens]
  | cons hd tl ih =>
    have hhd := rowTokens_length v c hd (h hd (by simp))
    have htl := ih fun r hr => h r (by simp [hr])
    have e1 : (sessionTokens v c (hd :: tl)).length
        = (rowTokens v c hd).length + (sessionTokens v c tl).length := by
      simp [sessionTokens, List.flatMap_cons, List.length_append]
    rw [e1, hhd, htl, List.length_cons, Nat.mul_succ]
    omega

/-- The token list of a session is never empty (it ends with the
end-of-sequence token). -/
theorem sessionTokens_ne_nil (v : Vocab) (c : TokCfg) (s : List (RowG Int)) :
    sessionTokens v c s ≠ [] := by
  simp [sessionTokens]

/-!  ## Lemmas: categorical codes  -/

/-- Filtering below a larger bound keeps at least as many elements. -/
theorem length_filter_lt_mono (D : List ℕ) (x y : ℕ) (hxy : x ≤ y) :
    (D.filter (· < x)).length ≤ (D.filter (· < y)).length := by
  induction D with
  | nil => simp
  | cons a D ih =>
    by_cases hax : a < x
    · have hay : a < y := lt_of_lt_of_le hax hxy
      simp [List.filter_cons, hax, hay]
      omega
    · by_cases hay : a < y <;> simp [List.filter_cons, hax, hay] <;> omega

/-- Strict monotonicity of the rank: if `x` occurs in the distinct values
and `x < y`, then strictly fewer distinct values lie below `x` than below
`y`. -/
theorem length_filter_lt_strict (D : List ℕ) (x y : ℕ) (hx : x ∈ D)
    (hxy : x < y) :
    (D.filter (· < x)).length < (D.filter (· < y)).length := by
  induction D with
  | nil => simp at hx
  | cons a D ih =>
    rcases List.mem_cons.mp hx with he | hx2
    · subst he
      have hmono := length_filter_lt_mono D x y (le_of_lt hxy)
      simp [List.filter_cons, lt_irrefl x, hxy]
      omega
    · have := ih hx2
      by_cases hax : a < x
      · have hay : a < y := lt_trans hax hxy
        simp [List.filter_cons, hax, hay]
        omega
      · by_cases hay : a < y <;> simp [List.filter_cons, hax, hay] <;> omega

/-- The rank of a present value is below the number of distinct values. -/
theorem length_filter_lt_self (D : List ℕ) (x : ℕ) (hx : x ∈ D) :
    (D.filter (· < x)).length < D.length := by
  induction D with
  | nil => simp at hx
  | cons a D ih =>
    rcases List.mem_cons.mp hx with he | hx2
    · subst he
      have hle := List.length_filter_le (fun b => decide (b < x)) D
      simp [List.filter_cons, lt_irrefl x]
      omega
    · have := ih hx2
      by_cases hax : a < x <;> simp [List.filter_cons, hax] <;> omega

/-- Membership in the distinct non-null values of a user column. -/
theorem mem_distinct_iff (us : List (Option Nat)) (x : ℕ) :
    x ∈ (us.filterMap id).dedup ↔ some x ∈ us := by
  rw [List.mem_dedup, List.mem_filterMap]
  constructor
  · rintro ⟨a, ha, hax⟩
    simp only [id] at hax
    rwa [hax] at ha
  · intro h
    exact ⟨some x, h, rfl⟩

/-- Deduplication preserves length under a map that is injective on the list. -/
theorem dedup_map_length {α β : Type} [DecidableEq α] [DecidableEq β]
    (f : α → β) (l : List α)
    (hf : ∀ x ∈ l, ∀ y ∈ l, f x = f y → x = y) :
    ((l.map f).dedup).length = l.dedup.length := by
  induction l with
  | nil => simp
  | cons a l ih =>
    have hmem : f a ∈ l.map f ↔ a ∈ l := by
      constructor
      · intro h
        obtain ⟨b, hb, hba⟩ := List.mem_map.mp h
        rwa [hf b (by simp [hb]) a (by simp) hba] at hb
      · intro h
        exact List.mem_map.mpr ⟨a, h, rfl⟩
    have ihl := ih fun x hx y hy => hf x (by simp [hx]) y (by simp [hy])
    by_cases hal : a ∈ l
    · rw [List.map_cons, List.dedup_cons_of_mem (hmem.mpr hal),
        List.dedup_cons_of_mem hal, ihl]
    · rw [List.map_cons, List.dedup_cons_of_not_mem (fun h => hal (hmem.mp h)),
        List.dedup_cons_of_not_mem hal]
      simp [ihl]

/-!  ## Lemmas: bucketizer  -/

/-- A digitized value never exceeds the number of bin edges. -/
theorem digitizeFin_le (v : ℝ) (bins : List ℚ) :
    digitizeFin v bins ≤ bins.length := by
  induction bins with
  | nil => simp [digitizeFin]
  | cons e es ih =>
    by_cases h : (e : ℝ) ≤ v <;> simp [digitizeFin, h] <;> omega

/-- Evaluation `np.log(0 + 1) = log 1 = 0`. -/
theorem npLog1p_zero : npLog1p 0 = NpFloat.fin 0 := by
  simp only [npLog1p]
  norm_num [Real.log_one]

/-- Evaluation `np.log(-1 + 1) = log 0 = -inf` (a warning, not an exception). -/
theorem npLog1p_neg_one : npLog1p (-1) = NpFloat.neginf := by
  simp only [npLog1p]
  norm_num

/-- Evaluation `np.log(d + 1) = nan` for `d < -1` (a warning, not an exception). -/
theorem npLog1p_lt_neg_one (d : Int) (hd : d < -1) : npLog1p d = NpFloat.nan := by
  simp only [npLog1p]
  rw [if_pos (by omega)]

/-!  ## Claim theorems  -/

/-- Claim C1, counterexample: the save step of `load_from_log` writes the
count artifact *before* the sequences artifact (and creates the cache
directory before either), so a save interrupted after two operations leaves
a cache directory that the existence check reports as present, a count
artifact that `load_count` reads back successfully, and no sequences
artifact — the opposite of the claimed "sequences first, count last (or an
equivalent scheme)" whose partial writes read as "cache does not exist
yet". -/
theorem c1_counterexample :
    saveOps ⟨false, none, false⟩ (some 5)
      = [CacheOp.mkdirCache, CacheOp.writeCount (some 5), CacheOp.writeSeqs]
  ∧ (runOps ⟨false, none, false⟩
      ((saveOps ⟨false, none, false⟩ (some 5)).take 2)).cacheDir = true
  ∧ (runOps ⟨false, none, false⟩
      ((saveOps ⟨false, none, false⟩ (some 5)).take 2)).countFile
      = some (CountFile.valid (some 5))
  ∧ (runOps ⟨false, none, false⟩
      ((saveOps ⟨false, none, false⟩ (some 5)).take 2)).seqsFile = false
  ∧ loadCountStep (CountFile.valid (some 5)) = Except.ok (some 5) := by
  decide

/-- Claim C1 (amended): for every run of the save step against a fresh
provider directory, the operation order is directory creation, then the
count artifact, then the sequences artifact; interrupting the save after
the first two operations leaves a state in which the cache-existence check
succeeds and the count loads back while the sequences artifact is missing
(a reader can observe a count without matching sequences). -/
theorem c1_save_order (fs : FS) (n : Option ℕ)
    (hdir : fs.cacheDir = false) (hseq : fs.seqsFile = false) :
    saveOps fs n = [CacheOp.mkdirCache, CacheOp.writeCount n, CacheOp.writeSeqs]
  ∧ (runOps fs ((saveOps fs n).take 2)).cacheDir = true
  ∧ (runOps fs ((saveOps fs n).take 2)).countFile = some (CountFile.valid n)
  ∧ (runOps fs ((saveOps fs n).take 2)).seqsFile = false
  ∧ loadCountStep (CountFile.valid n) = Except.ok n := by
  obtain ⟨cd, cf, sf⟩ := fs
  simp only at hdir hseq
  subst hdir
  subst hseq
  refine ⟨by simp [saveOps], ?_, ?_, ?_, rfl⟩ <;>
    simp [saveOps, runOps, applyOp]

/-- Claim C1, witness for the amended theorem at a concrete fresh directory
and count. -/
theorem c1_save_order_witness :
    (⟨false, none, false⟩ : FS).cacheDir = false
  ∧ (⟨false, none, false⟩ : FS).seqsFile = false
  ∧ (saveOps ⟨false, none, false⟩ (some 7)
      = [CacheOp.mkdirCache, CacheOp.writeCount (some 7), CacheOp.writeSeqs]
    ∧ (runOps ⟨false, none, false⟩
        ((saveOps ⟨false, none, false⟩ (some 7)).take 2)).cacheDir = true
    ∧ (runOps ⟨false, none, false⟩
        ((saveOps ⟨false, none, false⟩ (some 7)).take 2)).countFile
        = some (CountFile.valid (some 7))
    ∧ (runOps ⟨false, none, false⟩
        ((saveOps ⟨false, none, false⟩ (some 7)).take 2)).seqsFile = false
    ∧ loadCountStep (CountFile.valid (some 7)) = Except.ok (some 7)) :=
  ⟨rfl, rfl, c1_save_order ⟨false, none, false⟩ (some 7) rfl rfl⟩

/-- Claim C2: on the nine-event log `rowsC2` the shift pass produces two
shifts holding labels 0–4 and 5–8, but the session pass — whose
`seq_start_idx` is never reset between shifts and which uses dataframe
labels as shift-local positions — emits sessions holding only labels
0–2, 3–4 and 8: events 5, 6 and 7 are silently dropped, so the sessions of
the second shift do not concatenate back to that shift. -/
theorem c2_session_drop :
    (shiftAll 0 18000 rowsC2).map (List.map Prod.fst)
      = [[0, 1, 2, 3, 4], [5, 6, 7, 8]]
  ∧ (sessionsOfLog 0 18000 240 rowsC2).map (List.map Prod.fst)
      = [[0, 1, 2], [3, 4], [8]] := by
  decide

/-- Claim C4, counterexample: for a configuration whose timestamp column is
not among the sort columns (but which does supply bucket edges), the
constructor succeeds, and `load_from_log` reads the log file *first* and
only then raises the configuration error — the failure is not before I/O. -/
theorem c4_counterexample :
    datasetInit ⟨"ACCESS_TIME", ["ACCESS_INSTANT"], some [0], true⟩
      = Except.ok ()
  ∧ loadFromLogOps ⟨"ACCESS_TIME", ["ACCESS_INSTANT"], some [0], true⟩
      = [LogOp.readLogCSV, LogOp.raiseConfigError] := by
  decide

/-- Claim C4 (amended): tokenization requested without bucket edges fails
in the constructor, before any I/O (the constructor is a pure check); a
timestamp column missing from the sort columns raises a configuration
error in `load_from_log`, but only *after* the log file has been read. -/
theorem c4_config_checks :
    (∀ c : InitCfg, c.spaces = none → c.shouldTokenize = true →
        datasetInit c = Except.error PyErr.valueError)
  ∧ (∀ c : InitCfg, c.tsCol ∉ c.sortCols →
        loadFromLogOps c = [LogOp.readLogCSV, LogOp.raiseConfigError]) := by
  constructor
  · intro c h1 h2
    simp [datasetInit, h1, h2]
  · intro c h
    simp [loadFromLogOps, h]

/-- Claim C4, witness for the amended theorem at concrete configurations. -/
theorem c4_config_checks_witness :
    datasetInit ⟨"ACCESS_TIME", ["ACCESS_TIME"], none, true⟩
      = Except.error PyErr.valueError
  ∧ loadFromLogOps ⟨"ACCESS_TIME", ["ACCESS_INSTANT"], none, false⟩
      = [LogOp.readLogCSV, LogOp.raiseConfigError] :=
  ⟨c4_config_checks.1 ⟨"ACCESS_TIME", ["ACCESS_TIME"], none, true⟩ rfl rfl,
   c4_config_checks.2 ⟨"ACCESS_TIME", ["ACCESS_INSTANT"], none, false⟩
     (by decide)⟩

/-- Claim C8, counterexample: a count artifact that is present but holds
corrupt (non-empty, unpicklable) bytes makes the count load raise
`UnpicklingError` — only `EOFError` (the empty file) is caught and turned
into `0`, so "empty or corrupt returns 0 and never raises" is false. -/
theorem c8_counterexample :
    loadCountStep CountFile.corrupt = Except.error PyErr.unpicklingError
  ∧ loadCountStep CountFile.corrupt ≠ Except.ok (some 0) := by
  decide

/-- Claim C8 (amended): the count load returns `0` when the count artifact
is present but empty (`EOFError` is caught), returns exactly the persisted
value for a valid artifact, and raises `UnpicklingError` for a present but
corrupt (non-empty, unreadable) artifact. -/
theorem c8_load_count :
    loadCountStep CountFile.empty = Except.ok (some 0)
  ∧ (∀ n : Option ℕ, loadCountStep (CountFile.valid n) = Except.ok n)
  ∧ loadCountStep CountFile.corrupt = Except.error PyErr.unpicklingError :=
  ⟨rfl, fun _ => rfl, rfl⟩

/-- Claim C3, counterexample: with edges `[0, 1]` and delta `0`
(`ln(0 + 1) = 0`), the code's bucket is `digitize(0, [0, 1]) = 1` — the
first element `0` *is* used as a bin boundary — while the claimed formula
`digitize(ln(delta + 1), edges[1:]) = digitize(0, [1])` gives `0`. -/
theorem c3_counterexample :
    bucketize 0 [0, 1] = 1
  ∧ bucketizeSpecTail 0 [0, 1] = 0
  ∧ bucketize 0 [0, 1] ≠ bucketizeSpecTail 0 [0, 1] := by
  have h1 : bucketize 0 [0, 1] = 1 := by
    simp only [bucketize, npLog1p_zero, npDigitize, digitizeFin]
    norm_num
  have h2 : bucketizeSpecTail 0 [0, 1] = 0 := by
    simp only [bucketizeSpecTail, npLog1p_zero, npDigitize, List.tail_cons,
      digitizeFin]
    norm_num
  exact ⟨h1, h2, by omega⟩

/-- Claim C3 (amended): the Time Bucketizer computes
`digitize(ln(delta + 1), edges)` over the *full* caller-supplied edges list
(the first element is a bin boundary like any other), and the result is an
integer bucket in `[0, len(edges)]`. -/
theorem c3_bucketizer_full_edges :
    ∀ (d : Int) (edges : List ℚ),
      bucketize d edges = npDigitize (npLog1p d) edges
    ∧ bucketize d edges ≤ edges.length := by
  intro d edges
  refine ⟨rfl, ?_⟩
  cases h : npLog1p d with
  | nan => simp [bucketize, h, npDigitize]
  | neginf => simp [bucketize, h, npDigitize]
  | fin v => simp [bucketize, h, npDigitize, digitizeFin_le]

/-- Claim C7, counterexample: a delta of `-1` produces `ln(0) = -inf`
(a numpy warning, not an exception) which digitize silently maps to bucket
`0`, and a delta of `-2` produces `nan`, which digitize silently maps to
bucket `len(edges)` — both are in-range bucket values returned normally to
the caller, not an explicit numeric error. -/
theorem c7_counterexample :
    bucketize (-1) [0, 1] = 0 ∧ bucketize (-2) [0, 1] = 2 := by
  constructor
  · simp [bucketize, npLog1p_neg_one, npDigitize]
  · rw [bucketize, npLog1p_lt_neg_one (-2) (by omega)]
    simp [npDigitize]

/-- Claim C7 (amended): for every delta `≤ -1` the bucketizer returns
normally (the comment at line 101 says negative values are "quantized
away"): `-1` yields `-inf` inside the log and bucket `0`; anything below
`-1` yields `nan` and bucket `len(edges)`.  No numeric error reaches the
caller and the results are ordinary in-range bucket values. -/
theorem c7_negative_delta (d : Int) (edges : List ℚ) (hd : d ≤ -1) :
    bucketize d edges = if d = -1 then 0 else edges.length := by
  by_cases he : d = -1
  · subst he
    simp [bucketize, npLog1p_neg_one, npDigitize]
  · rw [bucketize, npLog1p_lt_neg_one d (by omega), if_neg he]
    simp [npDigitize]

/-- Claim C7, witness for the amended theorem at delta `-1` with a
single-edge list. -/
theorem c7_negative_delta_witness :
    (-1 : Int) ≤ -1 ∧ bucketize (-1) [0] = 0 :=
  ⟨le_refl _, by simpa using c7_negative_delta (-1) [0] (le_refl _)⟩

/-- Claim C5, counterexample: on an empty ordered log the shift pass does
not yield an empty sequence of segments — the `df.loc[0, ts] = 0` reset
enlarges the empty frame with a phantom row, and the unconditional final
append then emits one segment of length one containing that synthesized
event. -/
theorem c5_counterexample :
    shiftAll 1 18000 [] = [[(0, phantom 1)]]
  ∧ shiftAll 1 18000 [] ≠ [] := by
  decide

/-- Claim C5 (amended): for every nonnegative gap threshold and every
chronologically ordered event stream, the shift pass yields contiguous
segments whose concatenation is exactly the delta stream with each
threshold-exceeding delta reset to `0` (same events, same order, same
labels); no output segment contains a delta exceeding the threshold; every
segment after the first starts with a reset delta of `0`; the first event
of the stream has delta `0`; a single-event log yields one segment of
length one with delta `0`; and an *empty* log yields one segment holding a
single synthesized (phantom) event with delta `0` rather than no
segments. -/
theorem c5_shift_segmenter (k : Nat) (g : Int) (rows : List Raw)
    (hg : 0 ≤ g)
    (hs : List.Chain' (fun a b => a.ts ≤ b.ts) rows) :
    (shiftAll k g rows).flatten = zeroBounds g (addDeltas k rows).enum
  ∧ ((shiftAll k g rows).flatten).map Prod.fst
      = ((addDeltas k rows).enum).map Prod.fst
  ∧ (∀ seg ∈ shiftAll k g rows, ∀ p ∈ seg, p.2.delta ≤ g)
  ∧ (∀ seg ∈ (shiftAll k g rows).tail,
      seg.head?.map (fun p => p.2.delta) = some 0)
  ∧ ((addDeltas k rows).head?.map (fun r => r.delta) = some 0)
  ∧ (∀ r : Raw, rows = [r] →
      shiftAll k g rows = [[(0, ⟨r.user, 0, r.evs⟩)]])
  ∧ shiftAll k g ([] : List Raw) = [[(0, phantom k)]] := by
  refine ⟨segAux_join g [] (addDeltas k rows).enum, ?_, ?_, ?_, ?_, ?_, ?_⟩
  · unfold shiftAll
    rw [segAux_join g [] (addDeltas k rows).enum]
    simpa using zeroBounds_fst g (addDeltas k rows).enum
  · exact segAux_delta_le hg [] (addDeltas k rows).enum (by simp)
  · exact segAux_tail_head [] (addDeltas k rows).enum
  · cases rows <;> simp [addDeltas, phantom]
  · intro r hr
    subst hr
    simp [shiftAll, addDeltas, deltasFrom, segAux, not_lt.mpr hg]
  · simp [shiftAll, addDeltas, phantom, segAux, not_lt.mpr hg]

/-- Claim C5, witness for the amended theorem on a concrete two-event
ordered log with the default shift threshold. -/
theorem c5_shift_segmenter_witness :
    (0 : Int) ≤ 18000
  ∧ List.Chain' (fun a b => a.ts ≤ b.ts) rowsW
  ∧ ((shiftAll 1 18000 rowsW).flatten
        = zeroBounds 18000 (addDeltas 1 rowsW).enum
    ∧ ((shiftAll 1 18000 rowsW).flatten).map Prod.fst
        = ((addDeltas 1 rowsW).enum).map Prod.fst
    ∧ (∀ seg ∈ shiftAll 1 18000 rowsW, ∀ p ∈ seg, p.2.delta ≤ 18000)
    ∧ (∀ seg ∈ (shiftAll 1 18000 rowsW).tail,
        seg.head?.map (fun p => p.2.delta) = some 0)
    ∧ ((addDeltas 1 rowsW).head?.map (fun r => r.delta) = some 0)
    ∧ (∀ r : Raw, rowsW = [r] →
        shiftAll 1 18000 rowsW = [[(0, ⟨r.user, 0, r.evs⟩)]])
    ∧ shiftAll 1 18000 ([] : List Raw) = [[(0, phantom 1)]]) :=
  ⟨by norm_num,
   by norm_num [rowsW, List.chain'_cons, List.chain'_singleton],
   c5_shift_segmenter 1 18000 rowsW (by norm_num)
     (by norm_num [rowsW, List.chain'_cons, List.chain'_singleton])⟩

/-- Claim C6, counterexample: on a shift whose users appear in the order
`[2, 1]`, `astype("category").cat.codes` assigns `[1, 0]` (rank in *sorted*
order of the raw values), while assignment "in order of first appearance"
would give `[0, 1]` — the claimed assignment order is wrong. -/
theorem c6_counterexample :
    catCodes [some 2, some 1] = [1, 0]
  ∧ firstAppearCodes [some 2, some 1] = [0, 1]
  ∧ catCodes [some 2, some 1] ≠ firstAppearCodes [some 2, some 1] := by
  decide

/-- Claim C6 (amended): within one shift the categorical remap assigns each
present raw user identifier a dense integer in `[0, distinct_count)` in
*ascending order of the raw identifier value* (not first appearance):
the map is strictly monotone on present values, injective on the shift's
values (missing users all map to `-1`), preserves the number of distinct
values, and — being computed from the shift's own user column alone — is
independent across shifts, as the final conjunct shows for the raw user `5`
appearing in two different shifts. -/
theorem c6_user_remap (us : List (Option Nat)) :
    (∀ x y : ℕ, some x ∈ us → some y ∈ us → x < y →
        catCode us (some x) < catCode us (some y))
  ∧ (∀ x : ℕ, some x ∈ us →
        0 ≤ catCode us (some x)
      ∧ catCode us (some x) < (((us.filterMap id).dedup).length : Int))
  ∧ (∀ u ∈ us, ∀ w ∈ us, catCode us u = catCode us w → u = w)
  ∧ ((catCodes us).dedup).length = us.dedup.length
  ∧ (catCode [some 5, some 1] (some 5) = 1 ∧ catCode [some 5] (some 5) = 0) := by
  have hmono : ∀ x y : ℕ, some x ∈ us → some y ∈ us → x < y →
      catCode us (some x) < catCode us (some y) := by
    intro x y hx hy hxy
    simp only [catCode]
    exact_mod_cast length_filter_lt_strict ((us.filterMap id).dedup) x y
      ((mem_distinct_iff us x).mpr hx) hxy
  have hinj : ∀ u ∈ us, ∀ w ∈ us, catCode us u = catCode us w → u = w := by
    intro u hu w hw heq
    match u, w with
    | none, none => rfl
    | none, some y =>
      simp only [catCode] at heq
      omega
    | some x, none =>
      simp only [catCode] at heq
      omega
    | some x, some y =>
      rcases lt_trichotomy x y with h | h | h
      · exact absurd heq (ne_of_lt (hmono x y hu hw h))
      · rw [h]
      · exact absurd heq.symm (ne_of_lt (hmono y x hw hu h))
  refine ⟨hmono, ?_, hinj, ?_, by decide⟩
  · intro x hx
    constructor
    · simp [catCode]
    · simp only [catCode]
      exact_mod_cast length_filter_lt_self ((us.filterMap id).dedup) x
        ((mem_distinct_iff us x).mpr hx)
  · exact dedup_map_length (catCode us) us hinj

/-- Claim C6, witness for the amended theorem at the concrete shift
`[2, 1, NaN]`. -/
theorem c6_user_remap_witness :
    (∀ x y : ℕ, some x ∈ [some 2, some 1, none] →
        some y ∈ [some 2, some 1, none] → x < y →
        catCode [some 2, some 1, none] (some x)
          < catCode [some 2, some 1, none] (some y))
  ∧ (∀ x : ℕ, some x ∈ [some 2, some 1, none] →
        0 ≤ catCode [some 2, some 1, none] (some x)
      ∧ catCode [some 2, some 1, none] (some x)
          < ((([some 2, some 1, none].filterMap id).dedup).length : Int))
  ∧ (∀ u ∈ [some 2, some 1, none], ∀ w ∈ [some 2, some 1, none],
        catCode [some 2, some 1, none] u = catCode [some 2, some 1, none] w
          → u = w)
  ∧ ((catCodes [some 2, some 1, none]).dedup).length
      = [some 2, some 1, none].dedup.length
  ∧ (catCode [some 5, some 1] (some 5) = 1 ∧ catCode [some 5] (some 5) = 0) :=
  c6_user_remap [some 2, some 1, none]

/-- Claim C9 (confirmed): tokenization emits one vocabulary token per
(event, column) pair in row-major order over `[user_col, timestamp_col] ++
event_type_cols` followed by exactly one end-of-sequence token (so
`numCols * rows + 1` tokens); with no maximum length the whole sequence is
one unit; with a maximum length `m ≥ numCols` the tokens are split into
consecutive chunks of `m // numCols` — concatenating the chunks restores
the sequence, every non-final chunk has exactly that size, every chunk has
at most that size, and a session shorter than one window yields exactly one
short chunk. -/
theorem c9_tokenizer_chunker (v : Vocab) (c : TokCfg) (s : List (RowG Int))
    (hev : ∀ r ∈ s, r.evs.length = c.evCols.length) :
    (sessionTokens v c s).length = numCols c * s.length + 1
  ∧ sessionTokens v c s = s.flatMap (rowTokens v c) ++ [eosTok v]
  ∧ tokenizeChunk v c none s = Except.ok [sessionTokens v c s]
  ∧ ∀ m : ℕ, numCols c ≤ m →
      (tokenizeChunk v c (some m) s
        = Except.ok (torchSplit (m / numCols c) (sessionTokens v c s)))
    ∧ (torchSplit (m / numCols c) (sessionTokens v c s)).flatten
        = sessionTokens v c s
    ∧ torchSplit (m / numCols c) (sessionTokens v c s) ≠ []
    ∧ (∀ ch ∈ torchSplit (m / numCols c) (sessionTokens v c s),
        ch.length ≤ m / numCols c)
    ∧ (∀ i : ℕ,
        i + 1 < (torchSplit (m / numCols c) (sessionTokens v c s)).length →
        ∀ ch, (torchSplit (m / numCols c) (sessionTokens v c s))[i]? = some ch →
          ch.length = m / numCols c)
    ∧ ((sessionTokens v c s).length ≤ m / numCols c →
        torchSplit (m / numCols c) (sessionTokens v c s)
          = [sessionTokens v c s]) := by
  have hne := sessionTokens_ne_nil v c s
  refine ⟨sessionTokens_length v c s hev, rfl, rfl, ?_⟩
  intro m hm
  have h0 : 0 < numCols c := by
    unfold numCols
    omega
  have hcs : m / numCols c ≠ 0 := by
    have h1 := (Nat.one_le_div_iff h0).mpr hm
    omega
  refine ⟨?_, torchSplit_flatten _ hcs _, torchSplit_ne_nil _ hcs _ hne,
    torchSplit_chunk_le _ hcs _, torchSplit_chunk_eq _ hcs _,
    fun hle => torchSplit_short _ hcs _ hne hle⟩
  simp [tokenizeChunk, chunkStage, hcs]

/-- Claim C9, witness at a concrete vocabulary, column configuration,
two-row session and maximum length. -/
theorem c9_tokenizer_chunker_witness :
    (∀ r ∈ sessW, r.evs.length = tokCfgW.evCols.length)
  ∧ ((sessionTokens vocabW tokCfgW sessW).length
        = numCols tokCfgW * sessW.length + 1
    ∧ sessionTokens vocabW tokCfgW sessW
        = sessW.flatMap (rowTokens vocabW tokCfgW) ++ [eosTok vocabW]
    ∧ tokenizeChunk vocabW tokCfgW none sessW
        = Except.ok [sessionTokens vocabW tokCfgW sessW]
    ∧ ∀ m : ℕ, numCols tokCfgW ≤ m →
        (tokenizeChunk vocabW tokCfgW (some m) sessW
          = Except.ok (torchSplit (m / numCols tokCfgW)
              (sessionTokens vocabW tokCfgW sessW)))
      ∧ (torchSplit (m / numCols tokCfgW)
            (sessionTokens vocabW tokCfgW sessW)).flatten
          = sessionTokens vocabW tokCfgW sessW
      ∧ torchSplit (m / numCols tokCfgW)
            (sessionTokens vocabW tokCfgW sessW) ≠ []
      ∧ (∀ ch ∈ torchSplit (m / numCols tokCfgW)
            (sessionTokens vocabW tokCfgW sessW),
          ch.length ≤ m / numCols tokCfgW)
      ∧ (∀ i : ℕ,
          i + 1 < (torchSplit (m / numCols tokCfgW)
              (sessionTokens vocabW tokCfgW sessW)).length →
          ∀ ch, (torchSplit (m / numCols tokCfgW)
              (sessionTokens vocabW tokCfgW sessW))[i]? = some ch →
            ch.length = m / numCols tokCfgW)
      ∧ ((sessionTokens vocabW tokCfgW sessW).length ≤ m / numCols tokCfgW →
          torchSplit (m / numCols tokCfgW)
              (sessionTokens vocabW tokCfgW sessW)
            = [sessionTokens vocabW tokCfgW sessW])) :=
  ⟨by decide, c9_tokenizer_chunker vocabW tokCfgW sessW (by decide)⟩

/-- Claim C10 (confirmed): for a dataset instance on which `load()` has not
run (`self.len` is `None`) with a cache location configured whose cache
directory does not exist on disk, `__len__` returns `None` — no count, no
exception — and performs no artifact reads; moreover, whatever the cache
state, the `__len__` path never reads the sequences artifact (only the
count artifact, and only when the cache directory exists). -/
theorem c10_len_method (selfLen : Option ℕ) (c : String) (fs : FS)
    (h1 : selfLen = none) (h2 : fs.cacheDir = false) :
    lenMethod selfLen (some c) fs = (Except.ok none, [])
  ∧ ∀ fs' : FS, ReadOp.readSeqsArtifact ∉ (lenMethod selfLen (some c) fs').2 := by
  subst h1
  constructor
  · simp [lenMethod, h2]
  · intro fs'
    rcases fs' with ⟨cd, cf, sf⟩
    cases cd
    · simp [lenMethod]
    · cases cf with
      | none => simp [lenMethod]
      | some cfile =>
        simp only [lenMethod]
        cases h : loadCountStep cfile with
        | error e => simp [h]
        | ok n => simp [h]

/-- Claim C10, witness at a concrete unloaded dataset and absent cache
directory. -/
theorem c10_len_method_witness :
    (none : Option ℕ) = none
  ∧ (⟨false, none, false⟩ : FS).cacheDir = false
  ∧ (lenMethod none (some "cache") ⟨false, none, false⟩ = (Except.ok none, [])
    ∧ ∀ fs' : FS,
        ReadOp.readSeqsArtifact ∉ (lenMethod none (some "cache") fs').2) :=
  ⟨rfl, rfl, c10_len_method none "cache" ⟨false, none, false⟩ rfl rfl⟩
